import Mathlib

/-!
Verification development for the rust-utils-lib repository.

The Rust sources are shallowly embedded: Rust strings become `List Char`,
byte buffers become `List Nat` with values below 256, filesystem access
becomes explicit finite maps passed as function arguments, and external
library primitives (lettre SMTP transport, openssl RSA) become abstract
function parameters, while every piece of logic written in the repository
itself (template resolution, multipart assembly, delivery evaluation,
configuration parsing, base64url framing) is translated directly.
-/

namespace RustUtils

/-- A Rust string slice or owned string, modelled as its character list. -/
abbrev Str := List Char

/-- A Rust byte buffer, modelled as a list of naturals below 256. -/
abbrev Bytes := List Nat

/-- Model of Rust `String::starts_with(char)`: true when the first character
equals the given one; an empty string starts with no character. -/
def startsWithChar (c : Char) : Str → Bool
  | [] => false
  | d :: _ => d = c

/-- Whitespace test used by `trim`; mirrors `char::is_whitespace` for the
ASCII whitespace characters that matter to the configuration format. -/
def isWsChar (c : Char) : Bool := c.isWhitespace

/-- Model of Rust `str::trim`: drop leading and trailing whitespace. -/
def trim (s : Str) : Str :=
  ((s.dropWhile isWsChar).reverse.dropWhile isWsChar).reverse

/-- Fuel-driven worker for `listReplace`; the fuel only serves structural
recursion and is irrelevant once it dominates the input length. -/
def listReplaceGo (pat repl : Str) : Nat → Str → Str
  | _, [] => []
  | 0, s => s
  | fuel + 1, c :: rest =>
    if pat ≠ [] ∧ pat <+: (c :: rest) then
      repl ++ listReplaceGo pat repl fuel (rest.drop (pat.length - 1))
    else
      c :: listReplaceGo pat repl fuel rest

/-- Model of Rust `str::replace(pat, repl)`: scan left to right, replacing
each non-overlapping occurrence of `pat` with `repl`.  The sources only call
it with non-empty literal patterns, so an empty pattern is treated as a
no-match (the guard keeps the scan advancing). -/
def listReplace (pat repl s : Str) : Str := listReplaceGo pat repl s.length s

/-- The body placeholder token of the mail templates, the Rust literal in
`Mailer::send` spelled with escaped braces. -/
def contentsToken : Str := "\x7b\x7bcontents\x7d\x7d".toList

/-- The language placeholder token of the template filename pattern. -/
def langToken : Str := "\x7blang\x7d".toList

/-- Model of `Path::new(dir).join(rel)` for Unix paths: an absolute `rel`
replaces `dir`, otherwise the two are joined with a single separator. -/
def pathJoin (dir rel : Str) : Str :=
  if startsWithChar '/' rel then rel
  else if dir = [] then rel
  else if dir.getLast? = some '/' then dir ++ rel
  else dir ++ '/' :: rel

/-- The `ErrorReport` enum of `error.rs`; payloads other than the
`MailSentResponse` message are irrelevant to the claims and are dropped. -/
inductive ErrorReport where
  | ioErr
  | fromUtf8Err
  | mailHeaderContentTypeErr
  | mailTransportSmtpErr
  | mailContentErr
  | mailSentResponse (msg : Str)
  | flexiLoggerErr
  | openSslErrorStackErr
  | dataEncodingDecodeErr
deriving DecidableEq, Repr

/-- A lettre `Mailbox`: optional display name plus address. -/
structure Mailbox where
  name : Option Str
  address : Str
deriving DecidableEq, Repr

/-- The `MailAttachment` descriptor of `mailer.rs`. -/
structure MailAttachment where
  path : Str
  name : Str
  mime : Str
deriving DecidableEq, Repr

/-- The mailer `Config` struct of `mailer.rs`. -/
structure Config where
  fromAddrs : Mailbox
  replyTo : Mailbox
  server : Str
  port : Nat
  userName : Str
  password : Str
  templateDirPath : Str
  templateNameFormat : Str
  languages : List Str
  defaultLanguage : Str
deriving DecidableEq, Repr

/-- The lettre SMTP reply severity classes, the first digit of the final
three-digit reply code. -/
inductive Severity where
  | positiveCompletion
  | positiveIntermediate
  | transientNegativeCompletion
  | permanentNegativeCompletion
deriving DecidableEq, Repr

/-- The part of a lettre SMTP `Response` that `Mailer::send` inspects: the
severity class of the final reply code and the textual response lines. -/
structure SmtpResponse where
  severity : Severity
  messageLines : List Str
deriving DecidableEq, Repr

/-- A single MIME part of the outgoing message: either the HTML body or a
named binary attachment with its parsed content type. -/
inductive Part where
  | html (body : Str)
  | attachment (filename : Str) (content : Bytes) (mime : Str)
deriving DecidableEq, Repr

/-- The external world of one `send` call.  `fsText` models
`fs::read_to_string`, `fsBin` models `fs::read`, `parseMime` models
`str::parse::<ContentType>` from lettre (returning a canonical form on
success), `assemble` models the fallible lettre message builder,
`buildTransport` models `SmtpTransport::starttls_relay(..).port(..)
.credentials(..).build()`, and `transportSend` models the network
submission returning the server's final reply. -/
structure Env where
  fsText : Str → Option Str
  fsBin : Str → Option Bytes
  parseMime : Str → Option Str
  assemble : List Mailbox → Option (List Mailbox) → Str → List Part → Except ErrorReport Unit
  buildTransport : Str → Nat → Str → Str → Except ErrorReport Unit
  transportSend : List Part → Except ErrorReport SmtpResponse

/-- The language chosen by the `html_body` closure: the caller-supplied
language when present, else the configured default. -/
def resolvedLang (language : Option Str) (defaultLang : Str) : Str :=
  match language with
  | some val => val
  | none => defaultLang

/-- The template path the `html_body` closure reads: the chosen language
substituted into the filename pattern, joined onto the template directory. -/
def templatePathOf (language : Option Str) (defaultLang dir fmt : Str) : Str :=
  pathJoin dir (listReplace langToken (resolvedLang language defaultLang) fmt)

/-- The `html_body` closure of `Mailer::send`: read the resolved template
file, substitute the body placeholder with the message, and wrap the result
as an HTML part; a missing or unreadable file surfaces the I/O error. -/
def htmlBody (fsText : Str → Option Str) (message : Str) (language : Option Str)
    (defaultLang dir fmt : Str) : Except ErrorReport Part :=
  match fsText (templatePathOf language defaultLang dir fmt) with
  | none => .error .ioErr
  | some templateText => .ok (.html (listReplace contentsToken message templateText))

/-- The `attachement_part` closure of `Mailer::send`: read the file bytes
first (Rust evaluates the `body` arguments left to right), then parse the
declared MIME type, then build the named binary part. -/
def attachmentPart (env : Env) (att : MailAttachment) : Except ErrorReport Part :=
  match env.fsBin att.path with
  | none => .error .ioErr
  | some content =>
    match env.parseMime att.mime with
    | none => .error .mailHeaderContentTypeErr
    | some m => .ok (.attachment att.name content m)

/-- The attachment loop of `Mailer::send`: starting from the multipart
container already holding the HTML body, append each attachment part in
call order, aborting on the first failing attachment. -/
def addAttachments (env : Env) : List Part → List MailAttachment → Except ErrorReport (List Part)
  | parts, [] => .ok parts
  | parts, att :: rest =>
    match attachmentPart env att with
    | .error e => .error e
    | .ok p => addAttachments env (parts ++ [p]) rest

/-- The fold from `Mailer::send`: `res.message().fold(String::new(),
|t, s| t + s + "\n")`. -/
def foldResponseLines (lines : List Str) : Str :=
  lines.foldl (fun t s => t ++ s ++ ['\n']) []

/-- The final `match` of `Mailer::send` on the reply severity: positive
completion is success, everything else is a `MailSentResponse` error
carrying the folded response lines. -/
def deliveryOutcome (r : SmtpResponse) : Except ErrorReport Unit :=
  match r.severity with
  | .positiveCompletion => .ok ()
  | _ => .error (.mailSentResponse (foldResponseLines r.messageLines))

/-- The message text the spec prescribes for a rejected delivery: every
response line in original order, each terminated by a newline. -/
def specJoinLines (lines : List Str) : Str :=
  (lines.map (fun l => l ++ ['\n'])).flatten

deriving instance DecidableEq for Except

/-- Observable outcome of one `send` call: the returned result, the parts
of the assembled multipart body once assembly is reached, whether the
transport builder was invoked, and whether the network submission ran. -/
structure SendTrace where
  result : Except ErrorReport Unit
  assembledParts : Option (List Part)
  transportBuilt : Bool
  networkUsed : Bool
deriving DecidableEq, Repr

/-- `Mailer::send`, stage by stage in source order: resolve the HTML body,
fold the attachments into the mixed multipart, build the message, build the
SMTP transport, submit, and classify the server reply. -/
def sendModel (env : Env) (cfg : Config) (toAddrs : List Mailbox)
    (ccAddrs : Option (List Mailbox)) (subject message : Str)
    (language : Option Str) (attachments : Option (List MailAttachment)) : SendTrace :=
  match htmlBody env.fsText message language cfg.defaultLanguage
      cfg.templateDirPath cfg.templateNameFormat with
  | .error e => ⟨.error e, none, false, false⟩
  | .ok bodyPart =>
    match addAttachments env [bodyPart] (attachments.getD []) with
    | .error e => ⟨.error e, none, false, false⟩
    | .ok parts =>
      match env.assemble toAddrs ccAddrs subject parts with
      | .error e => ⟨.error e, some parts, false, false⟩
      | .ok _ =>
        match env.buildTransport cfg.server cfg.port cfg.userName cfg.password with
        | .error e => ⟨.error e, some parts, true, false⟩
        | .ok _ =>
          match env.transportSend parts with
          | .error e => ⟨.error e, some parts, true, true⟩
          | .ok r => ⟨deliveryOutcome r, some parts, true, true⟩

/-- The configuration file delimiter constant of `envars.rs`. -/
def configFileDelimiter : Char := '='

/-- The comment start character of `AppConfig`. -/
def commentStart : Char := '#'

/-- Split a string at every occurrence of a character; always returns at
least one (possibly empty) piece, like Rust `str::split(char)`. -/
def splitOnChar (c : Char) : Str → List Str
  | [] => [[]]
  | d :: rest =>
    match splitOnChar c rest with
    | [] => [[]]
    | h :: t => if d = c then [] :: h :: t else (d :: h) :: t

/-- Model of Rust `str::lines`: split at newline characters, drop a carriage
return preceding each newline, and treat a final newline as optional. -/
def linesOf (s : Str) : List Str :=
  let parts := splitOnChar '\n' s
  (parts.dropLast.map fun l => if l.getLast? = some '\r' then l.dropLast else l)
    ++ (match parts.getLast? with
        | some [] => []
        | some l => [l]
        | none => [])

/-- The line filter predicate of `AppConfig::init`, kept with the source's
condition verbatim: keep the line unless it is empty and starts with the
comment character. -/
def keepLine (l : Str) : Bool := !(l.isEmpty && startsWithChar commentStart l)

/-- Model of Rust `str::split_once(char)`: split at the first occurrence of
the delimiter, or `none` when the delimiter is absent. -/
def splitOnce (delim : Char) : Str → Option (Str × Str)
  | [] => none
  | c :: rest =>
    if c = delim then some ([], rest)
    else (splitOnce delim rest).map (fun p => (c :: p.1, p.2))

/-- The key/value pairs `AppConfig::init` feeds into its `HashMap`, in
iteration order: lines of the file, trimmed, filtered, and split at the
first delimiter. -/
def appConfigPairs (content : Str) (delim : Char) : List (Str × Str) :=
  (((linesOf content).map trim).filter keepLine).filterMap (fun l => splitOnce delim l)

/-- Model of `AppConfig::get_var`: `HashMap` lookup, where among duplicate
keys the last inserted pair wins. -/
def getVar (content : Str) (delim : Char) (key : Str) : Option Str :=
  ((appConfigPairs content delim).reverse.find? (fun p => p.1 == key)).map (·.2)

/-- The BASE64URL alphabet of the `data_encoding` crate. -/
def b64Alphabet : Str :=
  "ABCDEFGHIJKLMNOPQRSTUVWXYZabcdefghijklmnopqrstuvwxyz0123456789-_".toList

/-- Character of a six-bit group. -/
def sextetChar (n : Nat) : Char := b64Alphabet.getD n 'A'

/-- Inverse alphabet lookup; `none` for characters outside the alphabet. -/
def charSextet (c : Char) : Option Nat := b64Alphabet.findIdx? (· == c)

/-- `BASE64URL_NOPAD.encode`: big-endian six-bit groups over the bytes,
without padding characters. -/
def b64urlEncode : Bytes → Str
  | [] => []
  | [a] => [sextetChar (a / 4), sextetChar (a % 4 * 16)]
  | [a, b] =>
    [sextetChar (a / 4), sextetChar (a % 4 * 16 + b / 16), sextetChar (b % 16 * 4)]
  | a :: b :: c :: rest =>
    sextetChar (a / 4) :: sextetChar (a % 4 * 16 + b / 16) ::
      sextetChar (b % 16 * 4 + c / 64) :: sextetChar (c % 64) :: b64urlEncode rest

/-- `BASE64URL_NOPAD.decode`: quads of alphabet characters followed by an
optional two- or three-character remainder; rejects characters outside the
alphabet, a remainder of length one, and non-zero trailing bits. -/
def b64urlDecode : Str → Option Bytes
  | [] => some []
  | [_] => none
  | [c1, c2] =>
    match charSextet c1, charSextet c2 with
    | some s1, some s2 =>
      if s2 % 16 = 0 then some [s1 * 4 + s2 / 16] else none
    | _, _ => none
  | [c1, c2, c3] =>
    match charSextet c1, charSextet c2, charSextet c3 with
    | some s1, some s2, some s3 =>
      if s3 % 4 = 0 then some [s1 * 4 + s2 / 16, s2 % 16 * 16 + s3 / 4] else none
    | _, _, _ => none
  | c1 :: c2 :: c3 :: c4 :: rest =>
    match charSextet c1, charSextet c2, charSextet c3, charSextet c4, b64urlDecode rest with
    | some s1, some s2, some s3, some s4, some bs =>
      some ((s1 * 4 + s2 / 16) :: (s2 % 16 * 16 + s3 / 4) :: (s3 % 4 * 64 + s4) :: bs)
    | _, _, _, _, _ => none

/-- A UTF-8 continuation byte. -/
def isCont (b : Nat) : Bool := 0x80 ≤ b && b ≤ 0xBF

/-- Model of the UTF-8 validity check behind Rust `String::from_utf8`,
following RFC 3629 (shortest forms only, surrogates excluded). -/
def isValidUtf8 : Bytes → Bool
  | [] => true
  | b1 :: t1 =>
    if b1 < 0x80 then isValidUtf8 t1
    else if 0xC2 ≤ b1 && b1 ≤ 0xDF then
      match t1 with
      | b2 :: t2 => isCont b2 && isValidUtf8 t2
      | _ => false
    else if b1 = 0xE0 then
      match t1 with
      | b2 :: b3 :: t3 => (0xA0 ≤ b2 && b2 ≤ 0xBF) && isCont b3 && isValidUtf8 t3
      | _ => false
    else if (0xE1 ≤ b1 && b1 ≤ 0xEC) || b1 = 0xEE || b1 = 0xEF then
      match t1 with
      | b2 :: b3 :: t3 => isCont b2 && isCont b3 && isValidUtf8 t3
      | _ => false
    else if b1 = 0xED then
      match t1 with
      | b2 :: b3 :: t3 => (0x80 ≤ b2 && b2 ≤ 0x9F) && isCont b3 && isValidUtf8 t3
      | _ => false
    else if b1 = 0xF0 then
      match t1 with
      | b2 :: b3 :: b4 :: t4 =>
        (0x90 ≤ b2 && b2 ≤ 0xBF) && isCont b3 && isCont b4 && isValidUtf8 t4
      | _ => false
    else if 0xF1 ≤ b1 && b1 ≤ 0xF3 then
      match t1 with
      | b2 :: b3 :: b4 :: t4 => isCont b2 && isCont b3 && isCont b4 && isValidUtf8 t4
      | _ => false
    else if b1 = 0xF4 then
      match t1 with
      | b2 :: b3 :: b4 :: t4 =>
        (0x80 ≤ b2 && b2 ≤ 0x8F) && isCont b3 && isCont b4 && isValidUtf8 t4
      | _ => false
    else false

/-- The `RsaKeys` pair of `rsakeys.rs`.  The four openssl PKCS1 primitives
are abstracted as function fields over byte buffers: each models one
`public_encrypt` / `private_decrypt` / `private_encrypt` / `public_decrypt`
call already truncated to the bytes actually written. -/
structure RsaKeys where
  pubEncF : Bytes → Except ErrorReport Bytes
  privDecF : Bytes → Except ErrorReport Bytes
  privEncF : Bytes → Except ErrorReport Bytes
  pubDecF : Bytes → Except ErrorReport Bytes

/-- `RsaKeys::pub_encrypt`: encrypt the message bytes with the public key,
then frame the ciphertext with URL-safe unpadded base64. -/
def pub_encrypt (k : RsaKeys) (data : Bytes) : Except ErrorReport Str :=
  match k.pubEncF data with
  | .error e => .error e
  | .ok cipher => .ok (b64urlEncode cipher)

/-- `RsaKeys::priv_decrypt`: base64-decode the framing, decrypt with the
private key, and re-validate the plaintext as UTF-8. -/
def priv_decrypt (k : RsaKeys) (data : Str) : Except ErrorReport Bytes :=
  match b64urlDecode data with
  | none => .error .dataEncodingDecodeErr
  | some cipher =>
    match k.privDecF cipher with
    | .error e => .error e
    | .ok plain => if isValidUtf8 plain then .ok plain else .error .fromUtf8Err

/-- `RsaKeys::priv_encrypt`: encrypt with the private key, then frame with
URL-safe unpadded base64. -/
def priv_encrypt (k : RsaKeys) (data : Bytes) : Except ErrorReport Str :=
  match k.privEncF data with
  | .error e => .error e
  | .ok cipher => .ok (b64urlEncode cipher)

/-- `RsaKeys::pub_decrypt`: base64-decode the framing, decrypt with the
public key, and re-validate the plaintext as UTF-8. -/
def pub_decrypt (k : RsaKeys) (data : Str) : Except ErrorReport Bytes :=
  match b64urlDecode data with
  | none => .error .dataEncodingDecodeErr
  | some cipher =>
    match k.pubDecF cipher with
    | .error e => .error e
    | .ok plain => if isValidUtf8 plain then .ok plain else .error .fromUtf8Err

/-! Concrete fixtures used by the witnesses. -/

/-- Template directory used by witnesses. -/
def tplDir : Str := "templates".toList

/-- Template filename pattern with the language placeholder. -/
def tplFmt : Str := "mail_\x7blang\x7d.html".toList

/-- Language code fixture. -/
def enLang : Str := "en".toList

/-- Language code fixture. -/
def roLang : Str := "ro".toList

/-- A template text containing the body placeholder. -/
def tplText : Str := "<p>\x7b\x7bcontents\x7d\x7d</p>".toList

/-- A filesystem holding only the default language's template. -/
def fsEnOnly : Str → Option Str :=
  fun p => if p = templatePathOf none enLang tplDir tplFmt then some tplText else none

/-- A filesystem answering every text read with the fixture template. -/
def fsAllTpl : Str → Option Str := fun _ => some tplText

/-- A filesystem pointwise equal to `fsAllTpl` but written differently. -/
def fsAllTplAlt : Str → Option Str := fun p => if p = p then some tplText else none

/-- Mailbox fixture. -/
def mbA : Mailbox := ⟨none, "x@y".toList⟩

/-- Mailer configuration fixture with default language `en`. -/
def cfgRo : Config :=
  { fromAddrs := ⟨none, "a@b".toList⟩
  , replyTo := ⟨none, "a@b".toList⟩
  , server := "smtp.example".toList
  , port := 587
  , userName := "u".toList
  , password := "p".toList
  , templateDirPath := tplDir
  , templateNameFormat := tplFmt
  , languages := [enLang, roLang]
  , defaultLanguage := enLang }

/-- Environment whose text filesystem misses the `ro` template. -/
def envMissingTpl : Env :=
  { fsText := fsEnOnly
  , fsBin := fun _ => none
  , parseMime := fun _ => none
  , assemble := fun _ _ _ _ => .ok ()
  , buildTransport := fun _ _ _ _ => .ok ()
  , transportSend := fun _ => .ok ⟨.positiveCompletion, []⟩ }

/-- Attachment fixture. -/
def attA : MailAttachment := ⟨"fileA".toList, "A.txt".toList, "text/plain".toList⟩

/-- Attachment fixture. -/
def attB : MailAttachment := ⟨"fileB".toList, "B.txt".toList, "text/plain".toList⟩

/-- Attachment fixture with a malformed MIME string. -/
def badAtt : MailAttachment := ⟨"fileC".toList, "C.bin".toList, "not-a-mime-type".toList⟩

/-- Environment where every stage succeeds. -/
def envHappy : Env :=
  { fsText := fsAllTpl
  , fsBin := fun p => if p = attA.path then some [1] else some [2]
  , parseMime := fun m => some m
  , assemble := fun _ _ _ _ => .ok ()
  , buildTransport := fun _ _ _ _ => .ok ()
  , transportSend := fun _ => .ok ⟨.positiveCompletion, []⟩ }

/-- Environment with no readable template and no parseable MIME type. -/
def envC5 : Env :=
  { fsText := fun _ => none
  , fsBin := fun _ => some [0]
  , parseMime := fun _ => none
  , assemble := fun _ _ _ _ => .ok ()
  , buildTransport := fun _ _ _ _ => .ok ()
  , transportSend := fun _ => .ok ⟨.positiveCompletion, []⟩ }

/-- Environment where reads succeed and only `text/plain` parses. -/
def envC5Amend : Env :=
  { fsText := fsAllTpl
  , fsBin := fun _ => some [7]
  , parseMime := fun m => if m = "text/plain".toList then some m else none
  , assemble := fun _ _ _ _ => .ok ()
  , buildTransport := fun _ _ _ _ => .ok ()
  , transportSend := fun _ => .ok ⟨.positiveCompletion, []⟩ }

/-- Environment whose server rejects the submission with two reply lines. -/
def envReject : Env :=
  { fsText := fsAllTpl
  , fsBin := fun _ => some [1]
  , parseMime := fun m => some m
  , assemble := fun _ _ _ _ => .ok ()
  , buildTransport := fun _ _ _ _ => .ok ()
  , transportSend := fun _ =>
      .ok ⟨.permanentNegativeCompletion, ["mailbox unavailable".toList, "try later".toList]⟩ }

/-- Configuration file content fixture: a comment line that still contains
the delimiter, followed by an ordinary pair. -/
def cfgContent : Str := "# A=B\nK=V".toList

/-- The message text named by the round-trip property. -/
def helloStr : Str := "hello".toList

/-- A template text without the body placeholder. -/
def tplNoToken : Str := "<p>static</p>".toList

/-- A filesystem answering every text read with the placeholder-free
template. -/
def fsNoToken : Str → Option Str := fun _ => some tplNoToken

/-- A key pair whose abstract RSA primitives are mutual inverses (the
identity), used to instantiate the matching-pair hypotheses. -/
def rsaId : RsaKeys :=
  { pubEncF := fun bs => .ok bs
  , privDecF := fun bs => .ok bs
  , privEncF := fun bs => .ok bs
  , pubDecF := fun bs => .ok bs }

/-- The UTF-8 bytes of the string `hi`. -/
def hiBytes : Bytes := [104, 105]

/-! Theorems. -/

theorem listReplaceGo_congr (pat repl : Str) :
    ∀ (f1 f2 : Nat) (s : Str), s.length ≤ f1 → s.length ≤ f2 →
      listReplaceGo pat repl f1 s = listReplaceGo pat repl f2 s := by
  intro f1
  induction f1 with
  | zero =>
    intro f2 s h1 _
    have : s = [] := List.eq_nil_of_length_eq_zero (Nat.le_zero.mp h1)
    subst this
    cases f2 <;> rfl
  | succ f ih =>
    intro f2 s h1 h2
    cases s with
    | nil => cases f2 <;> rfl
    | cons c rest =>
      cases f2 with
      | zero => simp at h2
      | succ g =>
        simp only [listReplaceGo]
        by_cases hc : pat ≠ [] ∧ pat <+: (c :: rest)
        · rw [if_pos hc, if_pos hc]
          have hd : (rest.drop (pat.length - 1)).length ≤ f := by
            simp only [List.length_drop]
            simp only [List.length_cons] at h1
            omega
          have hd2 : (rest.drop (pat.length - 1)).length ≤ g := by
            simp only [List.length_drop]
            simp only [List.length_cons] at h2
            omega
          rw [ih _ _ hd hd2]
        · rw [if_neg hc, if_neg hc]
          have hr : rest.length ≤ f := by simp only [List.length_cons] at h1; omega
          have hr2 : rest.length ≤ g := by simp only [List.length_cons] at h2; omega
          rw [ih _ _ hr hr2]

theorem listReplace_nil (pat repl : Str) : listReplace pat repl [] = [] := rfl

theorem listReplace_cons (pat repl : Str) (c : Char) (rest : Str) :
    listReplace pat repl (c :: rest) =
      if pat ≠ [] ∧ pat <+: (c :: rest) then
        repl ++ listReplace pat repl (rest.drop (pat.length - 1))
      else
        c :: listReplace pat repl rest := by
  show listReplaceGo pat repl (rest.length + 1) (c :: rest) = _
  simp only [listReplaceGo]
  by_cases hc : pat ≠ [] ∧ pat <+: (c :: rest)
  · rw [if_pos hc, if_pos hc]
    congr 1
    exact listReplaceGo_congr pat repl _ _ _ (by simp [List.length_drop]) (le_refl _)
  · rw [if_neg hc, if_neg hc]
    rfl

/-- C2: with no caller language, the template resolved and read is exactly
the one named by substituting the default language into the pattern joined
onto the template directory; with a caller language, that language is
substituted instead; and the produced body depends only on the file at the
default-resolved path, so no other language's file is consulted. -/
theorem language_fallback_resolution (fsT fsT' : Str → Option Str)
    (message dlang dir fmt l : Str)
    (hagree : fsT' (templatePathOf none dlang dir fmt)
      = fsT (templatePathOf none dlang dir fmt)) :
    templatePathOf none dlang dir fmt = pathJoin dir (listReplace langToken dlang fmt) ∧
    templatePathOf (some l) dlang dir fmt = pathJoin dir (listReplace langToken l fmt) ∧
    htmlBody fsT' message none dlang dir fmt = htmlBody fsT message none dlang dir fmt := by
  refine ⟨rfl, rfl, ?_⟩
  unfold htmlBody
  rw [hagree]

theorem language_fallback_resolution_witness :
    templatePathOf none enLang tplDir tplFmt
      = pathJoin tplDir (listReplace langToken enLang tplFmt) ∧
    templatePathOf (some roLang) enLang tplDir tplFmt
      = pathJoin tplDir (listReplace langToken roLang tplFmt) ∧
    htmlBody fsEnOnly "m".toList none enLang tplDir tplFmt
      = htmlBody fsAllTpl "m".toList none enLang tplDir tplFmt :=
  language_fallback_resolution fsAllTpl fsEnOnly "m".toList enLang tplDir tplFmt roLang
    (by decide)

/-- C3: when the resolved language's template file is absent, `send` fails
with the I/O error, whatever other template files exist. -/
theorem missing_template_io_error (env : Env) (cfg : Config) (toAddrs : List Mailbox)
    (ccAddrs : Option (List Mailbox)) (subject message : Str) (language : Option Str)
    (attachments : Option (List MailAttachment))
    (hmissing : env.fsText (templatePathOf language cfg.defaultLanguage
      cfg.templateDirPath cfg.templateNameFormat) = none) :
    (sendModel env cfg toAddrs ccAddrs subject message language attachments).result
      = Except.error ErrorReport.ioErr := by
  unfold sendModel htmlBody
  rw [hmissing]

theorem missing_template_io_error_witness :
    envMissingTpl.fsText (templatePathOf (some roLang) cfgRo.defaultLanguage
      cfgRo.templateDirPath cfgRo.templateNameFormat) = none ∧
    (sendModel envMissingTpl cfgRo [mbA] none "s".toList "m".toList
      (some roLang) none).result = Except.error ErrorReport.ioErr :=
  ⟨by decide,
   missing_template_io_error envMissingTpl cfgRo [mbA] none "s".toList "m".toList
     (some roLang) none (by decide)⟩

/-- C8: template resolution is deterministic; resolving against two
snapshots of an unchanged file system yields byte-identical HTML body
content for the same message, language selection, and configuration. -/
theorem template_resolution_deterministic (fs1 fs2 : Str → Option Str)
    (message : Str) (language : Option Str) (dlang dir fmt : Str)
    (hsame : ∀ p, fs1 p = fs2 p) :
    htmlBody fs1 message language dlang dir fmt
      = htmlBody fs2 message language dlang dir fmt := by
  have h : fs1 = fs2 := funext hsame
  rw [h]

theorem template_resolution_deterministic_witness :
    htmlBody fsAllTpl "m".toList none enLang tplDir tplFmt
      = htmlBody fsAllTplAlt "m".toList none enLang tplDir tplFmt :=
  template_resolution_deterministic fsAllTpl fsAllTplAlt "m".toList none enLang tplDir tplFmt
    (fun p => by simp [fsAllTpl, fsAllTplAlt])

/-- C9: the filter of `AppConfig::init` excludes no line, because an empty
line never starts with the comment character; hence every trimmed line that
splits at the delimiter, comment lines included, contributes its pair to
the sequence of map insertions. -/
theorem comment_filter_keeps_all_lines (content : Str) (delim : Char) :
    (((linesOf content).map trim).filter keepLine = (linesOf content).map trim) ∧
    (∀ l ∈ (linesOf content).map trim, ∀ k v, splitOnce delim l = some (k, v) →
      (k, v) ∈ appConfigPairs content delim) := by
  have hkeep : ∀ l : Str, keepLine l = true := by
    intro l
    cases l <;> simp [keepLine, startsWithChar]
  constructor
  · exact List.filter_eq_self.mpr (fun a _ => hkeep a)
  · intro l hl k v hsplit
    unfold appConfigPairs
    rw [List.filter_eq_self.mpr (fun a _ => hkeep a)]
    exact List.mem_filterMap.mpr ⟨l, hl, hsplit⟩

theorem comment_filter_keeps_all_lines_witness :
    ("# A".toList, "B".toList) ∈ appConfigPairs cfgContent configFileDelimiter :=
  (comment_filter_keeps_all_lines cfgContent configFileDelimiter).2
    "# A=B".toList (by decide) "# A".toList "B".toList (by decide)

theorem addAttachments_append (env : Env) {pre : List MailAttachment} {ps : List Part}
    (h : List.Forall₂ (fun a p => attachmentPart env a = Except.ok p) pre ps) :
    ∀ (parts : List Part) (rest : List MailAttachment),
      addAttachments env parts (pre ++ rest) = addAttachments env (parts ++ ps) rest := by
  induction h with
  | nil => intro parts rest; simp
  | cons ha _ ih =>
    intro parts rest
    simp only [List.cons_append, addAttachments, ha]
    rw [List.append_eq, ih]
    simp [List.append_assoc]

theorem addAttachments_ok (env : Env) {atts : List MailAttachment} {ps : List Part}
    (h : List.Forall₂ (fun a p => attachmentPart env a = Except.ok p) atts ps)
    (parts : List Part) :
    addAttachments env parts atts = Except.ok (parts ++ ps) := by
  have := addAttachments_append env h parts []
  simpa [addAttachments] using this

/-- C4: whenever the HTML body resolves and every attachment packs, the
assembled mixed multipart body is the HTML part followed by the attachment
parts in exactly the supplied order; this covers in particular every
successful send call. -/
theorem attachment_order_preserved (env : Env) (cfg : Config) (toAddrs : List Mailbox)
    (ccAddrs : Option (List Mailbox)) (subject message : Str) (language : Option Str)
    (atts : List MailAttachment) (bodyPart : Part) (ps : List Part)
    (hb : htmlBody env.fsText message language cfg.defaultLanguage
      cfg.templateDirPath cfg.templateNameFormat = Except.ok bodyPart)
    (ha : List.Forall₂ (fun a p => attachmentPart env a = Except.ok p) atts ps) :
    (sendModel env cfg toAddrs ccAddrs subject message language (some atts)).assembledParts
      = some (bodyPart :: ps) := by
  unfold sendModel
  rw [hb]
  simp only [Option.getD_some]
  rw [addAttachments_ok env ha [bodyPart]]
  simp only [List.cons_append, List.nil_append]
  cases env.assemble toAddrs ccAddrs subject (bodyPart :: ps) with
  | error e => rfl
  | ok u =>
    cases env.buildTransport cfg.server cfg.port cfg.userName cfg.password with
    | error e => rfl
    | ok u2 =>
      cases env.transportSend (bodyPart :: ps) with
      | error e => rfl
      | ok r => rfl

theorem attachment_order_preserved_witness :
    (sendModel envHappy cfgRo [mbA] none "s".toList "hello".toList none
      (some [attA, attB])).assembledParts
      = some [Part.html (listReplace contentsToken "hello".toList tplText),
              Part.attachment "A.txt".toList [1] "text/plain".toList,
              Part.attachment "B.txt".toList [2] "text/plain".toList] :=
  attachment_order_preserved envHappy cfgRo [mbA] none "s".toList "hello".toList none
    [attA, attB] (Part.html (listReplace contentsToken "hello".toList tplText))
    [Part.attachment "A.txt".toList [1] "text/plain".toList,
     Part.attachment "B.txt".toList [2] "text/plain".toList]
    (by decide)
    (List.Forall₂.cons (by decide) (List.Forall₂.cons (by decide) List.Forall₂.nil))

theorem foldResponseLines_eq (lines : List Str) :
    foldResponseLines lines = specJoinLines lines := by
  have haux : ∀ (ls : List Str) (acc : Str),
      ls.foldl (fun t s => t ++ s ++ ['\n']) acc = acc ++ specJoinLines ls := by
    intro ls
    induction ls with
    | nil => intro acc; simp [specJoinLines]
    | cons l t ih =>
      intro acc
      simp only [List.foldl_cons]
      rw [ih]
      simp [specJoinLines, List.append_assoc]
  simpa [foldResponseLines] using haux lines []

/-- C1: when the protocol exchange succeeds and the server's final reply is
returned, `send` succeeds exactly when the reply severity is positive
completion; any other severity class produces the `MailSentResponse` error
whose message is every response line in original order, each terminated by
a newline. -/
theorem delivery_evaluation (env : Env) (cfg : Config) (toAddrs : List Mailbox)
    (ccAddrs : Option (List Mailbox)) (subject message : Str) (language : Option Str)
    (attachments : Option (List MailAttachment)) (bodyPart : Part) (parts : List Part)
    (r : SmtpResponse)
    (hb : htmlBody env.fsText message language cfg.defaultLanguage
      cfg.templateDirPath cfg.templateNameFormat = Except.ok bodyPart)
    (hp : addAttachments env [bodyPart] (attachments.getD []) = Except.ok parts)
    (hasm : env.assemble toAddrs ccAddrs subject parts = Except.ok ())
    (ht : env.buildTransport cfg.server cfg.port cfg.userName cfg.password = Except.ok ())
    (hs : env.transportSend parts = Except.ok r) :
    (sendModel env cfg toAddrs ccAddrs subject message language attachments).result
      = if r.severity = Severity.positiveCompletion then Except.ok ()
        else Except.error (ErrorReport.mailSentResponse (specJoinLines r.messageLines)) := by
  unfold sendModel
  rw [hb]
  simp only []
  rw [hp]
  simp only []
  rw [hasm]
  simp only []
  rw [ht]
  simp only []
  rw [hs]
  rcases r with ⟨sev, lines⟩
  cases sev <;> simp [deliveryOutcome, foldResponseLines_eq]

theorem delivery_evaluation_witness :
    (sendModel envReject cfgRo [mbA] none "s".toList "m".toList none none).result
      = if (SmtpResponse.mk Severity.permanentNegativeCompletion
            ["mailbox unavailable".toList, "try later".toList]).severity
          = Severity.positiveCompletion then Except.ok ()
        else Except.error (ErrorReport.mailSentResponse (specJoinLines
          (SmtpResponse.mk Severity.permanentNegativeCompletion
            ["mailbox unavailable".toList, "try later".toList]).messageLines)) :=
  delivery_evaluation envReject cfgRo [mbA] none "s".toList "m".toList none none
    (Part.html (listReplace contentsToken "m".toList tplText))
    [Part.html (listReplace contentsToken "m".toList tplText)]
    ⟨Severity.permanentNegativeCompletion,
     ["mailbox unavailable".toList, "try later".toList]⟩
    (by decide) (by decide) (by decide) (by decide) (by decide)

/-- C5 counterexample: a send call whose attachment declares a malformed
MIME type but whose template file is missing returns the I/O error, not the
content-type error, because `send` resolves the template before packing any
attachment. -/
theorem malformed_mime_counterexample :
    envC5.parseMime badAtt.mime = none ∧
    (sendModel envC5 cfgRo [mbA] none "s".toList "m".toList none
      (some [badAtt])).result = Except.error ErrorReport.ioErr ∧
    (sendModel envC5 cfgRo [mbA] none "s".toList "m".toList none
      (some [badAtt])).result ≠ Except.error ErrorReport.mailHeaderContentTypeErr := by
  decide

/-- C5 amended: when the template read succeeds and every attachment before
the malformed one packs and the malformed attachment's file read succeeds,
a malformed MIME type makes `send` return the content-type error, with no
SMTP transport built and no network activity. -/
theorem malformed_mime_content_type_error (env : Env) (cfg : Config)
    (toAddrs : List Mailbox) (ccAddrs : Option (List Mailbox)) (subject message : Str)
    (language : Option Str) (pre : List MailAttachment) (bad : MailAttachment)
    (rest : List MailAttachment) (bodyPart : Part) (ps : List Part) (content : Bytes)
    (hb : htmlBody env.fsText message language cfg.defaultLanguage
      cfg.templateDirPath cfg.templateNameFormat = Except.ok bodyPart)
    (hpre : List.Forall₂ (fun a p => attachmentPart env a = Except.ok p) pre ps)
    (hread : env.fsBin bad.path = some content)
    (hmime : env.parseMime bad.mime = none) :
    sendModel env cfg toAddrs ccAddrs subject message language (some (pre ++ bad :: rest))
      = ⟨Except.error ErrorReport.mailHeaderContentTypeErr, none, false, false⟩ := by
  unfold sendModel
  rw [hb]
  simp only [Option.getD_some]
  rw [addAttachments_append env hpre [bodyPart] (bad :: rest)]
  simp only [addAttachments, attachmentPart, hread, hmime]

theorem malformed_mime_content_type_error_witness :
    envC5Amend.parseMime badAtt.mime = none ∧
    sendModel envC5Amend cfgRo [mbA] none "s".toList "m".toList none
      (some ([attA] ++ badAtt :: []))
      = ⟨Except.error ErrorReport.mailHeaderContentTypeErr, none, false, false⟩ :=
  ⟨by decide,
   malformed_mime_content_type_error envC5Amend cfgRo [mbA] none "s".toList "m".toList
     none [attA] badAtt []
     (Part.html (listReplace contentsToken "m".toList tplText))
     [Part.attachment "A.txt".toList [7] "text/plain".toList] [7]
     (by decide)
     (List.Forall₂.cons (by decide) List.Forall₂.nil)
     (by decide) (by decide)⟩

theorem char_split_append : ∀ (r u x v : Str) (ch : Char), ch ∉ r →
    r ++ x = u ++ ch :: v → ∃ u', u = r ++ u' ∧ x = u' ++ ch :: v := by
  intro r
  induction r with
  | nil =>
    intro u x v ch _ h
    exact ⟨u, rfl, by simpa using h⟩
  | cons a r' ih =>
    intro u x v ch hch h
    cases u with
    | nil =>
      simp only [List.cons_append, List.nil_append] at h
      injection h with h1 _
      exact absurd (h1 ▸ List.mem_cons_self a r') hch
    | cons b u' =>
      simp only [List.cons_append] at h
      injection h with h1 h2
      subst h1
      obtain ⟨u'', hu, hx⟩ := ih u' x v ch (fun hm => hch (List.mem_cons_of_mem _ hm)) h2
      exact ⟨u'', by rw [hu]; rfl, hx⟩

theorem token_infix_hello_append (X : Str)
    (h : contentsToken <:+: helloStr ++ X) : contentsToken <:+: X := by
  obtain ⟨u, v, huv⟩ := h
  have htok : contentsToken = '\x7b' :: contentsToken.tail := rfl
  have huv' : helloStr ++ X = u ++ '\x7b' :: (contentsToken.tail ++ v) := by
    rw [← huv, htok]
    simp [List.append_assoc]
  obtain ⟨u', _, hx⟩ := char_split_append helloStr u X (contentsToken.tail ++ v) '\x7b'
    (by decide) huv'
  refine ⟨u', v, ?_⟩
  rw [hx, htok]
  simp [List.append_assoc]

theorem prefix_of_replace (s : Str) : ∀ q : Str, q ≠ [] → 'h' ∉ q →
    q <+: listReplace contentsToken helloStr s → q <+: s := by
  induction s with
  | nil =>
    intro q hne _ hq
    rw [listReplace_nil] at hq
    exact absurd (List.prefix_nil.mp hq) hne
  | cons c rest ih =>
    intro q hne hh hq
    rw [listReplace_cons] at hq
    by_cases hc : contentsToken ≠ [] ∧ contentsToken <+: (c :: rest)
    · rw [if_pos hc] at hq
      obtain ⟨t, ht⟩ := hq
      cases q with
      | nil => exact absurd rfl hne
      | cons q0 qt =>
        have h0 : q0 = 'h' := by
          have := congrArg (fun l => l.head?) ht
          simpa [helloStr] using this
        exact absurd (h0 ▸ List.mem_cons_self q0 qt) hh
    · rw [if_neg hc] at hq
      cases q with
      | nil => exact absurd rfl hne
      | cons q0 qt =>
        rw [List.cons_prefix_cons] at hq
        obtain ⟨h0, hqt⟩ := hq
        subst h0
        by_cases hqt0 : qt = []
        · subst hqt0
          exact ⟨rest, rfl⟩
        · have := ih qt hqt0 (fun hm => hh (List.mem_cons_of_mem _ hm)) hqt
          exact List.cons_prefix_cons.mpr ⟨rfl, this⟩

theorem replace_no_token_fuel : ∀ (n : Nat) (t : Str), t.length ≤ n →
    ¬ contentsToken <:+: listReplace contentsToken helloStr t := by
  intro n
  induction n with
  | zero =>
    intro t ht
    have h0 : t = [] := List.eq_nil_of_length_eq_zero (Nat.le_zero.mp ht)
    subst h0
    rw [listReplace_nil]
    exact (by decide)
  | succ f ih =>
    intro t ht
    cases t with
    | nil =>
      rw [listReplace_nil]
      exact (by decide)
    | cons c rest =>
      rw [listReplace_cons]
      by_cases hc : contentsToken ≠ [] ∧ contentsToken <+: (c :: rest)
      · rw [if_pos hc]
        intro h
        have h2 := token_infix_hello_append _ h
        have hlen : (rest.drop (contentsToken.length - 1)).length ≤ f := by
          simp only [List.length_drop]
          simp only [List.length_cons] at ht
          omega
        exact ih _ hlen h2
      · rw [if_neg hc]
        intro h
        rcases List.infix_cons_iff.mp h with hpre | hinf
        · have heq : (c :: listReplace contentsToken helloStr rest)
              = listReplace contentsToken helloStr (c :: rest) := by
            rw [listReplace_cons, if_neg hc]
          rw [heq] at hpre
          have := prefix_of_replace (c :: rest) contentsToken (by decide) (by decide) hpre
          exact hc ⟨by decide, this⟩
        · have hlen : rest.length ≤ f := by
            simp only [List.length_cons] at ht
            omega
          exact ih rest hlen hinf

theorem replace_hello_present : ∀ (t : Str), contentsToken <:+: t →
    helloStr <:+: listReplace contentsToken helloStr t := by
  intro t
  induction t with
  | nil => intro h; exact absurd h (by decide)
  | cons c rest ih =>
    intro h
    rw [listReplace_cons]
    by_cases hc : contentsToken ≠ [] ∧ contentsToken <+: (c :: rest)
    · rw [if_pos hc]
      exact ⟨[], listReplace contentsToken helloStr (rest.drop (contentsToken.length - 1)),
        by simp⟩
    · rw [if_neg hc]
      rcases List.infix_cons_iff.mp h with hpre | hinf
      · exact absurd ⟨by decide, hpre⟩ hc
      · obtain ⟨u, v, huv⟩ := ih hinf
        exact ⟨c :: u, v, by rw [← huv]; rfl⟩

/-- C6: a template containing the body placeholder, rendered with the
message text `hello`, yields an HTML body that contains `hello` and no
longer contains the placeholder token. -/
theorem contents_round_trip (fsT : Str → Option Str) (language : Option Str)
    (dlang dir fmt t : Str)
    (hread : fsT (templatePathOf language dlang dir fmt) = some t)
    (h : contentsToken <:+: t) :
    htmlBody fsT helloStr language dlang dir fmt
      = Except.ok (Part.html (listReplace contentsToken helloStr t)) ∧
    helloStr <:+: listReplace contentsToken helloStr t ∧
    ¬ contentsToken <:+: listReplace contentsToken helloStr t := by
  refine ⟨?_, replace_hello_present t h, replace_no_token_fuel t.length t (le_refl _)⟩
  unfold htmlBody
  rw [hread]

theorem contents_round_trip_witness :
    contentsToken <:+: tplText ∧
    (htmlBody fsAllTpl helloStr none enLang tplDir tplFmt
      = Except.ok (Part.html (listReplace contentsToken helloStr tplText)) ∧
     helloStr <:+: listReplace contentsToken helloStr tplText ∧
     ¬ contentsToken <:+: listReplace contentsToken helloStr tplText) :=
  ⟨by decide,
   contents_round_trip fsAllTpl none enLang tplDir tplFmt tplText (by decide) (by decide)⟩

theorem replace_of_no_occurrence (pat repl : Str) : ∀ t : Str, ¬ pat <:+: t →
    listReplace pat repl t = t := by
  intro t
  induction t with
  | nil => intro _; exact listReplace_nil pat repl
  | cons c rest ih =>
    intro h
    rw [listReplace_cons]
    have hc : ¬ (pat ≠ [] ∧ pat <+: (c :: rest)) := by
      rintro ⟨_, hpre⟩
      exact h hpre.isInfix
    rw [if_neg hc, ih (fun hinf => h (List.infix_cons_iff.mpr (Or.inr hinf)))]

/-- C7: a resolved template without the body placeholder renders unchanged;
the message is silently not inserted and no error is raised. -/
theorem template_without_token_unchanged (fsT : Str → Option Str) (message : Str)
    (language : Option Str) (dlang dir fmt t : Str)
    (hread : fsT (templatePathOf language dlang dir fmt) = some t)
    (h : ¬ contentsToken <:+: t) :
    htmlBody fsT message language dlang dir fmt = Except.ok (Part.html t) := by
  unfold htmlBody
  rw [hread]
  simp only []
  rw [replace_of_no_occurrence contentsToken message t h]

theorem template_without_token_unchanged_witness :
    (¬ contentsToken <:+: tplNoToken) ∧
    htmlBody fsNoToken "m".toList none enLang tplDir tplFmt
      = Except.ok (Part.html tplNoToken) :=
  ⟨by decide,
   template_without_token_unchanged fsNoToken "m".toList none enLang tplDir tplFmt
     tplNoToken (by decide) (by decide)⟩

theorem sextet_round_trip : ∀ n : Nat, n < 64 → charSextet (sextetChar n) = some n := by
  decide

theorem b64url_round_trip : ∀ bs : Bytes, (∀ b ∈ bs, b < 256) →
    b64urlDecode (b64urlEncode bs) = some bs
  | [], _ => rfl
  | [a], h => by
    have ha : a < 256 := h a (by simp)
    simp only [b64urlEncode, b64urlDecode]
    rw [sextet_round_trip _ (by omega), sextet_round_trip _ (by omega)]
    simp only []
    rw [if_pos (by omega)]
    simp only [Option.some.injEq, List.cons.injEq, and_true]
    omega
  | [a, b], h => by
    have ha : a < 256 := h a (by simp)
    have hb : b < 256 := h b (by simp)
    simp only [b64urlEncode, b64urlDecode]
    rw [sextet_round_trip _ (by omega), sextet_round_trip _ (by omega),
      sextet_round_trip _ (by omega)]
    simp only []
    rw [if_pos (by omega)]
    simp only [Option.some.injEq, List.cons.injEq, and_true]
    constructor
    · omega
    · omega
  | a :: b :: c :: rest, h => by
    have ha : a < 256 := h a (by simp)
    have hb : b < 256 := h b (by simp)
    have hc : c < 256 := h c (by simp)
    have ih := b64url_round_trip rest (fun x hx => h x (by simp [hx]))
    simp only [b64urlEncode, b64urlDecode]
    rw [sextet_round_trip _ (by omega), sextet_round_trip _ (by omega),
      sextet_round_trip _ (by omega), sextet_round_trip _ (by omega), ih]
    simp only [Option.some.injEq, List.cons.injEq]
    exact ⟨by omega, by omega, by omega, trivial⟩

/-- C10: for a key pair whose abstract RSA primitives invert each other on
the message (the matching-pair and block-fit hypotheses) and a message
whose bytes are valid UTF-8, `priv_decrypt` after `pub_encrypt` and
`pub_decrypt` after `priv_encrypt` both return the original message: the
URL-safe base64 framing and the encryption round-trip. -/
theorem rsa_round_trip (k : RsaKeys) (m c c' : Bytes)
    (hval : isValidUtf8 m = true)
    (h1 : k.pubEncF m = Except.ok c) (hcb : ∀ b ∈ c, b < 256)
    (h2 : k.privDecF c = Except.ok m)
    (h3 : k.privEncF m = Except.ok c') (hcb' : ∀ b ∈ c', b < 256)
    (h4 : k.pubDecF c' = Except.ok m) :
    ((pub_encrypt k m).bind (priv_decrypt k) = Except.ok m) ∧
    ((priv_encrypt k m).bind (pub_decrypt k) = Except.ok m) := by
  constructor
  · unfold pub_encrypt
    rw [h1]
    show priv_decrypt k (b64urlEncode c) = Except.ok m
    unfold priv_decrypt
    rw [b64url_round_trip c hcb]
    simp only []
    rw [h2]
    simp only []
    simp [hval]
  · unfold priv_encrypt
    rw [h3]
    show pub_decrypt k (b64urlEncode c') = Except.ok m
    unfold pub_decrypt
    rw [b64url_round_trip c' hcb']
    simp only []
    rw [h4]
    simp only []
    simp [hval]

theorem rsa_round_trip_witness :
    isValidUtf8 hiBytes = true ∧
    ((pub_encrypt rsaId hiBytes).bind (priv_decrypt rsaId) = Except.ok hiBytes ∧
     (priv_encrypt rsaId hiBytes).bind (pub_decrypt rsaId) = Except.ok hiBytes) :=
  ⟨by decide,
   rsa_round_trip rsaId hiBytes hiBytes hiBytes (by decide) rfl (by decide) rfl rfl
     (by decide) rfl⟩

end RustUtils
